import Mathlib

/-!
# Task Notes API: the request handlers of `src/backend/server.js`

The Express handlers are embedded as pure functions on an explicit store.
The two sources of nondeterminism of the server, `uuidv4()` and `new Date()`,
are streams of an environment; the store counts how many values of each
stream have been consumed so far, so that every call site of the source
reads its own value.

Timestamps are kept as instants (milliseconds since the epoch); the source
stores `toISOString()` of the instant, which denotes the same instant.
-/

namespace TaskNotes

/-! ## JSON values and JavaScript truthiness -/

/-- A JavaScript value as the handlers meet it: what `JSON.parse` produces
(`express.json()` puts it in `req.body`), and `undefined`, the result of
reading a property the body does not have. A number is the value of the
parsed double. -/
inductive JVal where
  | undefined : JVal
  | null : JVal
  | bool (b : Bool) : JVal
  | num (q : Rat) : JVal
  | str (s : String) : JVal
  | arr (xs : List JVal) : JVal
  | obj (kvs : List (String × JVal)) : JVal

/-- JavaScript truthiness: `undefined`, `null`, `false`, `0` and `""` are
falsy, everything else (every array and object included) is truthy. -/
def JVal.truthy : JVal → Bool
  | .undefined => false
  | .null => false
  | .bool b => b
  | .num q => decide (q ≠ 0)
  | .str s => decide (s ≠ "")
  | .arr _ => true
  | .obj _ => true

/-- The own properties of `req.body`, the object `express.json()` parsed from
the request. The keys of a parsed object are distinct; `getProp` reads the
first entry of a key. -/
abbrev Body := List (String × JVal)

/-- Property read `body.key`, as done by the destructuring
`const { title, content } = req.body`: `undefined` when the key is absent. -/
def getProp : Body → String → JVal
  | [], _ => .undefined
  | (k, v) :: rest, key => if k = key then v else getProp rest key

/-- The test `x !== undefined`. -/
def JVal.isDefined : JVal → Bool
  | .undefined => false
  | _ => true

/-! ## Data model -/

/-- A task record as the server stores it. `title`, `content` and `completed`
hold whatever JSON value a request supplied. -/
structure Task where
  id : String
  title : JVal
  content : JVal
  completed : JVal
  createdAt : Int
  updatedAt : Int

/-- The environment: the k-th value returned by `uuidv4()` and the k-th
reading of `new Date()` in the process lifetime. -/
structure Env where
  uuidv4 : Nat → String
  now : Nat → Int

/-- The server state: the `tasks` array and how many values of each stream of
the environment have been consumed. -/
structure Store where
  tasks : List Task
  uuidCalls : Nat
  dateCalls : Nat

/-- Body of an HTTP response. -/
inductive ResBody where
  | empty : ResBody
  | error (msg : String) : ResBody
  | task (t : Task) : ResBody
  | tasks (ts : List Task) : ResBody
  | health (status message : String) : ResBody

/-- An HTTP response: status code and body. -/
structure Response where
  status : Nat
  body : ResBody

/-- The module-level initialiser `let tasks = [ ... ]`: one welcome task, whose
two timestamps are two successive readings of the clock. -/
def initStore (env : Env) : Store :=
  { tasks :=
      [{ id := "1"
         title := .str "Welcome to Task Notes"
         content := .str "This is your first task note. You can edit, delete, or add new ones!"
         completed := .bool false
         createdAt := env.now 0
         updatedAt := env.now 1 }]
    uuidCalls := 0
    dateCalls := 2 }

/-! ## Array helpers -/

/-- The call `tasks.find(t => t.id === id)`: the first task with that id. -/
def findTask : List Task → String → Option Task
  | [], _ => none
  | t :: rest, id => if t.id = id then some t else findTask rest id

/-- The call `tasks.findIndex(t => t.id === id)`: the index of the first task with that
id; `none` stands for the result `-1`. -/
def findIndex : List Task → String → Option Nat
  | [], _ => none
  | t :: rest, id => if t.id = id then some 0 else (findIndex rest id).map (· + 1)

/-! ## Handlers -/

/-- Handler of `GET /api/tasks` (`app.get`, lines 27-29). -/
def getTasks (s : Store) : Store × Response :=
  (s, { status := 200, body := .tasks s.tasks })

/-- Handler of `GET /api/tasks/:id` (`app.get`, lines 32-38). -/
def getTaskById (s : Store) (id : String) : Store × Response :=
  match findTask s.tasks id with
  | none => (s, { status := 404, body := .error "Task not found" })
  | some task => (s, { status := 200, body := .task task })

/-- Handler of `POST /api/tasks` (`app.post`, lines 41-59). The id is read from
the generator first, then `createdAt` and `updatedAt` from two successive
`new Date()` calls. -/
def postTask (env : Env) (s : Store) (body : Body) : Store × Response :=
  let title := getProp body "title"
  let content := getProp body "content"
  if !title.truthy || !content.truthy then
    (s, { status := 400, body := .error "Title and content are required" })
  else
    let newTask : Task :=
      { id := env.uuidv4 s.uuidCalls
        title := title
        content := content
        completed := .bool false
        createdAt := env.now s.dateCalls
        updatedAt := env.now (s.dateCalls + 1) }
    ({ tasks := s.tasks ++ [newTask]
       uuidCalls := s.uuidCalls + 1
       dateCalls := s.dateCalls + 2 },
     { status := 201, body := .task newTask })

/-- The object literal assigned to `tasks[taskIndex]` by the update handler:
the spread of the old task, then the four overriding properties. -/
def mergeTask (old : Task) (body : Body) (stamp : Int) : Task :=
  let title := getProp body "title"
  let content := getProp body "content"
  let completed := getProp body "completed"
  { old with
    title := if title.isDefined then title else old.title
    content := if content.isDefined then content else old.content
    completed := if completed.isDefined then completed else old.completed
    updatedAt := stamp }

/-- Handler of `PUT /api/tasks/:id` (`app.put`, lines 62-80). -/
def putTask (env : Env) (s : Store) (id : String) (body : Body) : Store × Response :=
  match findIndex s.tasks id with
  | none => (s, { status := 404, body := .error "Task not found" })
  | some taskIndex =>
    -- `findIndex` only returns positions of the array, see `findIndex_lt`
    match s.tasks[taskIndex]? with
    | none => (s, { status := 404, body := .error "Task not found" })
    | some old =>
      let updated := mergeTask old body (env.now s.dateCalls)
      ({ s with tasks := s.tasks.set taskIndex updated, dateCalls := s.dateCalls + 1 },
       { status := 200, body := .task updated })

/-- Handler of `DELETE /api/tasks/:id` (`app.delete`, lines 83-92):
`tasks.splice(taskIndex, 1)` removes the one element at that position. -/
def deleteTaskById (s : Store) (id : String) : Store × Response :=
  match findIndex s.tasks id with
  | none => (s, { status := 404, body := .error "Task not found" })
  | some taskIndex =>
    ({ s with tasks := s.tasks.eraseIdx taskIndex }, { status := 204, body := .empty })

/-- Handler of `GET /health`. -/
def getHealth (s : Store) : Store × Response :=
  (s, { status := 200, body := .health "OK" "Task Notes API is running" })

/-- A request to the API. -/
inductive Request where
  | list : Request
  | get (id : String) : Request
  | create (body : Body) : Request
  | update (id : String) (body : Body) : Request
  | delete (id : String) : Request
  | health : Request

/-- Dispatch of one request to its handler. -/
def handle (env : Env) (s : Store) : Request → Store × Response
  | .list => getTasks s
  | .get id => getTaskById s id
  | .create body => postTask env s body
  | .update id body => putTask env s id body
  | .delete id => deleteTaskById s id
  | .health => getHealth s

/-- The store after serving a sequence of requests, starting from `s`. -/
def runFrom (env : Env) (s : Store) : List Request → Store
  | [] => s
  | r :: rest => runFrom env (handle env s r).1 rest

/-- The store after serving a sequence of requests since process start. -/
def run (env : Env) (reqs : List Request) : Store :=
  runFrom env (initStore env) reqs

/-! ## Text helpers of the client (`src/frontend/src/app/page.js`) -/

/-- ECMAScript white space and line terminators, the characters removed by
`String.prototype.trim`. -/
def isWhiteSpace (c : Char) : Bool :=
  c.toNat ∈ [0x9, 0xA, 0xB, 0xC, 0xD, 0x20, 0xA0, 0x1680, 0x2028, 0x2029, 0x202F, 0x205F,
    0x3000, 0xFEFF] || (0x2000 ≤ c.toNat && c.toNat ≤ 0x200A)

/-- The method `String.prototype.trim`, which the client applies in its `createTask` and
`handleSave` before it sends a request. -/
def jsTrim (s : String) : String :=
  ⟨((s.data.dropWhile isWhiteSpace).reverse.dropWhile isWhiteSpace).reverse⟩

/-- A value is blank when it is a string that is empty after trimming. -/
def JVal.blank : JVal → Bool
  | .str s => decide (jsTrim s = "")
  | _ => false

/-! ## Environments and assumptions on them -/

/-- The generator never repeats itself and never returns the id of the
welcome task: each id it produces differs from every id produced or present
before. -/
def FreshIds (env : Env) : Prop :=
  ∀ k, env.uuidv4 k ≠ "1" ∧ ∀ j, j < k → env.uuidv4 j ≠ env.uuidv4 k

/-- The clock never goes backwards between successive reads. -/
def ClockMonotone (env : Env) : Prop :=
  ∀ k, env.now k ≤ env.now (k + 1)

/-- An environment whose clock advances by one millisecond at every reading
and whose k-th id is a run of `k + 2` letters. -/
def tickingEnv : Env :=
  { uuidv4 := fun k => String.mk (List.replicate (k + 2) 'u')
    now := fun k => (k : Int) }

/-! ## Classes of requests -/

/-- A request keeps the texts non-empty when it is not an update, or an update
whose title and content are each either absent or truthy. -/
def Request.keepsText : Request → Bool
  | .update _ body =>
    (!(getProp body "title").isDefined || (getProp body "title").truthy) &&
    (!(getProp body "content").isDefined || (getProp body "content").truthy)
  | _ => true

/-! ## Invariants of the reachable stores -/

/-- Invariant of the reachable stores: every id is that of the welcome task or
one already drawn from the generator, and no id occurs twice. -/
def IdsInv (env : Env) (s : Store) : Prop :=
  (∀ t ∈ s.tasks, t.id = "1" ∨ ∃ j, j < s.uuidCalls ∧ t.id = env.uuidv4 j) ∧
  (s.tasks.map Task.id).Nodup

/-- Invariant of the reachable stores: in every task `createdAt ≤ updatedAt`,
and `updatedAt` is a clock reading already made. -/
def StampsInv (env : Env) (s : Store) : Prop :=
  ∀ t ∈ s.tasks, t.createdAt ≤ t.updatedAt ∧ ∃ k, k < s.dateCalls ∧ t.updatedAt = env.now k

/-- Invariant of the stores reached without emptying updates: title and
content of every task are truthy. -/
def TextInv (s : Store) : Prop :=
  ∀ t ∈ s.tasks, t.title.truthy = true ∧ t.content.truthy = true

/-! ## Lemmas on the array helpers -/

theorem findTask_eq_none {ts : List Task} {id : String} :
    findTask ts id = none ↔ ∀ t ∈ ts, t.id ≠ id := by
  induction ts with
  | nil => simp [findTask]
  | cons t rest ih =>
    by_cases h : t.id = id
    · simp [findTask, h]
    · simp [findTask, h, ih]

theorem findIndex_eq_none {ts : List Task} {id : String} :
    findIndex ts id = none ↔ ∀ t ∈ ts, t.id ≠ id := by
  induction ts with
  | nil => simp [findIndex]
  | cons t rest ih =>
    by_cases h : t.id = id
    · simp [findIndex, h]
    · simp [findIndex, h, ih]

/-- What `findIndex` returns is the position of the first task with the id,
which is also the task `find` returns. -/
theorem findIndex_some {ts : List Task} {id : String} {i : Nat}
    (h : findIndex ts id = some i) :
    ∃ t, ts[i]? = some t ∧ t.id = id ∧ findTask ts id = some t ∧
      ∀ j u, j < i → ts[j]? = some u → u.id ≠ id := by
  induction ts generalizing i with
  | nil => simp [findIndex] at h
  | cons t rest ih =>
    by_cases hid : t.id = id
    · simp [findIndex, hid] at h
      subst h
      exact ⟨t, by simp, hid, by simp [findTask, hid], by intro j u hj; omega⟩
    · simp [findIndex, hid] at h
      obtain ⟨k, hk, rfl⟩ := h
      obtain ⟨u, hu, huid, hfind, hfirst⟩ := ih hk
      refine ⟨u, by simpa using hu, huid, by simpa [findTask, hid] using hfind, ?_⟩
      intro j v hj hv
      cases j with
      | zero =>
        simp at hv
        subst hv
        exact hid
      | succ j =>
        simp at hv
        exact hfirst j v (by omega) hv

theorem findIndex_lt {ts : List Task} {id : String} {i : Nat}
    (h : findIndex ts id = some i) : i < ts.length := by
  obtain ⟨t, ht, _⟩ := findIndex_some h
  exact (List.getElem?_eq_some.mp ht).1

theorem findIndex_isSome_of_mem {ts : List Task} {id : String}
    (h : ∃ t ∈ ts, t.id = id) : ∃ i, findIndex ts id = some i := by
  cases hfi : findIndex ts id with
  | some i => exact ⟨i, rfl⟩
  | none =>
    obtain ⟨t, ht, hid⟩ := h
    exact absurd hid (findIndex_eq_none.mp hfi t ht)

/-! ## Create -/

/-- C1: for every store and every body whose title or content is missing or
the empty string, the create handler answers 400 with the error
"Title and content are required" and returns the store unchanged. -/
theorem create_missing_or_empty_rejected (env : Env) (s : Store) (body : Body)
    (h : getProp body "title" = .undefined ∨ getProp body "title" = .str "" ∨
      getProp body "content" = .undefined ∨ getProp body "content" = .str "") :
    postTask env s body =
      (s, { status := 400, body := .error "Title and content are required" }) := by
  unfold postTask
  rcases h with h | h | h | h <;> simp [h, JVal.truthy]

/-- Instance on the initial store: a body that has a content and no title. -/
theorem create_missing_or_empty_rejected_witness :
    (getProp [("content", JVal.str "y")] "title" = .undefined ∨
      getProp [("content", JVal.str "y")] "title" = .str "" ∨
      getProp [("content", JVal.str "y")] "content" = .undefined ∨
      getProp [("content", JVal.str "y")] "content" = .str "") ∧
    postTask tickingEnv (initStore tickingEnv) [("content", JVal.str "y")] =
      (initStore tickingEnv,
        { status := 400, body := .error "Title and content are required" }) :=
  ⟨Or.inl rfl, create_missing_or_empty_rejected tickingEnv (initStore tickingEnv)
    [("content", JVal.str "y")] (Or.inl rfl)⟩

/-- C2 (refuted as stated): the title `"   "` is empty after trimming, yet the
create handler answers 201 and the collection grows by one task. -/
theorem create_whitespace_title_accepted :
    jsTrim "   " = "" ∧
    (postTask tickingEnv (initStore tickingEnv)
      [("title", .str "   "), ("content", .str "y")]).2.status = 201 ∧
    (postTask tickingEnv (initStore tickingEnv)
      [("title", .str "   "), ("content", .str "y")]).2.status ≠ 400 ∧
    (postTask tickingEnv (initStore tickingEnv)
      [("title", .str "   "), ("content", .str "y")]).1.tasks ≠
        (initStore tickingEnv).tasks := by
  refine ⟨by decide, by decide, by decide, ?_⟩
  intro h
  have := congrArg List.length h
  revert this
  decide

/-- C2 (amended): the server does not trim. For string title and content the
create handler answers 400 exactly when one of them is the empty string, and
then the store is unchanged; when both are non-empty (whitespace-only
included) it answers 201 and appends exactly one task carrying them. -/
theorem create_rejects_exactly_empty_strings (env : Env) (s : Store) (body : Body)
    (title content : String)
    (ht : getProp body "title" = .str title) (hc : getProp body "content" = .str content) :
    ((postTask env s body).2.status = 400 ↔ title = "" ∨ content = "") ∧
    ((title = "" ∨ content = "") → postTask env s body =
      (s, { status := 400, body := .error "Title and content are required" })) ∧
    (title ≠ "" → content ≠ "" →
      (postTask env s body).2.status = 201 ∧
      ∃ t, (postTask env s body).1.tasks = s.tasks ++ [t] ∧
        t.title = .str title ∧ t.content = .str content) := by
  unfold postTask
  by_cases h1 : title = "" <;> by_cases h2 : content = "" <;>
    simp [ht, hc, JVal.truthy, h1, h2]

/-- Instance on the initial store: the title is one space, the content `"y"`. -/
theorem create_rejects_exactly_empty_strings_witness :
    ((postTask tickingEnv (initStore tickingEnv)
        [("title", .str " "), ("content", .str "y")]).2.status = 400 ↔
      (" " : String) = "" ∨ ("y" : String) = "") ∧
    (((" " : String) = "" ∨ ("y" : String) = "") →
      postTask tickingEnv (initStore tickingEnv)
        [("title", .str " "), ("content", .str "y")] =
      (initStore tickingEnv,
        { status := 400, body := .error "Title and content are required" })) ∧
    ((" " : String) ≠ "" → ("y" : String) ≠ "" →
      (postTask tickingEnv (initStore tickingEnv)
        [("title", .str " "), ("content", .str "y")]).2.status = 201 ∧
      ∃ t, (postTask tickingEnv (initStore tickingEnv)
          [("title", .str " "), ("content", .str "y")]).1.tasks =
          (initStore tickingEnv).tasks ++ [t] ∧
        t.title = .str " " ∧ t.content = .str "y") :=
  create_rejects_exactly_empty_strings tickingEnv (initStore tickingEnv)
    [("title", .str " "), ("content", .str "y")] " " "y" rfl rfl

/-- C3: for every store and every body with truthy title and content, the
create handler answers 201 with a task that carries the supplied title and
content, `completed = false` and the id drawn from the generator (whatever
the body holds, an `id` key included); the new collection is the old one
with that task appended; and listing after two such creates returns the old
tasks followed by the two created tasks in order. -/
theorem create_appends_generated_task (env : Env) (s : Store) (a b : Body)
    (hat : (getProp a "title").truthy = true) (hac : (getProp a "content").truthy = true)
    (hbt : (getProp b "title").truthy = true) (hbc : (getProp b "content").truthy = true) :
    ∃ ta tb : Task,
      (postTask env s a).2 = { status := 201, body := .task ta } ∧
      ta.title = getProp a "title" ∧ ta.content = getProp a "content" ∧
      ta.completed = .bool false ∧ ta.id = env.uuidv4 s.uuidCalls ∧
      (postTask env s a).1.tasks = s.tasks ++ [ta] ∧
      (postTask env (postTask env s a).1 b).2 = { status := 201, body := .task tb } ∧
      tb.title = getProp b "title" ∧ tb.content = getProp b "content" ∧
      tb.completed = .bool false ∧ tb.id = env.uuidv4 (s.uuidCalls + 1) ∧
      (getTasks (postTask env (postTask env s a).1 b).1).2 =
        { status := 200, body := .tasks (s.tasks ++ [ta, tb]) } := by
  simp [postTask, getTasks, hat, hac, hbt, hbc]

/-- Instance on the initial store: the first body also carries an `id` key, which
the handler never reads. -/
theorem create_appends_generated_task_witness :
    ∃ ta tb : Task,
      (postTask tickingEnv (initStore tickingEnv)
        [("id", .str "1"), ("title", .str "A"), ("content", .str "x")]).2 =
          { status := 201, body := .task ta } ∧
      ta.title = getProp [("id", .str "1"), ("title", .str "A"), ("content", .str "x")] "title" ∧
      ta.content =
        getProp [("id", .str "1"), ("title", .str "A"), ("content", .str "x")] "content" ∧
      ta.completed = .bool false ∧ ta.id = tickingEnv.uuidv4 (initStore tickingEnv).uuidCalls ∧
      (postTask tickingEnv (initStore tickingEnv)
        [("id", .str "1"), ("title", .str "A"), ("content", .str "x")]).1.tasks =
          (initStore tickingEnv).tasks ++ [ta] ∧
      (postTask tickingEnv (postTask tickingEnv (initStore tickingEnv)
        [("id", .str "1"), ("title", .str "A"), ("content", .str "x")]).1
        [("title", .str "B"), ("content", .str "y")]).2 =
          { status := 201, body := .task tb } ∧
      tb.title = getProp [("title", .str "B"), ("content", .str "y")] "title" ∧
      tb.content = getProp [("title", .str "B"), ("content", .str "y")] "content" ∧
      tb.completed = .bool false ∧
      tb.id = tickingEnv.uuidv4 ((initStore tickingEnv).uuidCalls + 1) ∧
      (getTasks (postTask tickingEnv (postTask tickingEnv (initStore tickingEnv)
        [("id", .str "1"), ("title", .str "A"), ("content", .str "x")]).1
        [("title", .str "B"), ("content", .str "y")]).1).2 =
          { status := 200, body := .tasks ((initStore tickingEnv).tasks ++ [ta, tb]) } :=
  create_appends_generated_task tickingEnv (initStore tickingEnv)
    [("id", .str "1"), ("title", .str "A"), ("content", .str "x")]
    [("title", .str "B"), ("content", .str "y")] rfl rfl rfl rfl

/-- C4 (the code at the failing input): when the clock advances between the
two `new Date()` calls of the create handler, the created task has
`createdAt = 2` and `updatedAt = 3`, which differ. -/
theorem create_reads_clock_twice :
    ∃ t : Task,
      (postTask tickingEnv (initStore tickingEnv)
        [("title", .str "x"), ("content", .str "y")]).2 =
          { status := 201, body := .task t } ∧
      t.createdAt = 2 ∧ t.updatedAt = 3 ∧ t.createdAt ≠ t.updatedAt := by
  refine ⟨_, rfl, rfl, rfl, ?_⟩
  decide

/-! ## Not found -/

/-- C6: for every store and every id that no task carries, Get, Update (with
any payload) and Delete each answer 404 with the error "Task not found" and
return the store unchanged. -/
theorem unknown_id_not_found (env : Env) (s : Store) (id : String) (body : Body)
    (h : ∀ t ∈ s.tasks, t.id ≠ id) :
    getTaskById s id = (s, { status := 404, body := .error "Task not found" }) ∧
    putTask env s id body = (s, { status := 404, body := .error "Task not found" }) ∧
    deleteTaskById s id = (s, { status := 404, body := .error "Task not found" }) := by
  have h1 := findTask_eq_none.mpr h
  have h2 := findIndex_eq_none.mpr h
  simp [getTaskById, putTask, deleteTaskById, h1, h2]

/-- Instance on the initial store, whose only id is `"1"`, with the id `"7"`. -/
theorem unknown_id_not_found_witness :
    (∀ t ∈ (initStore tickingEnv).tasks, t.id ≠ "7") ∧
    getTaskById (initStore tickingEnv) "7" =
      (initStore tickingEnv, { status := 404, body := .error "Task not found" }) ∧
    putTask tickingEnv (initStore tickingEnv) "7" [("title", .str "z")] =
      (initStore tickingEnv, { status := 404, body := .error "Task not found" }) ∧
    deleteTaskById (initStore tickingEnv) "7" =
      (initStore tickingEnv, { status := 404, body := .error "Task not found" }) :=
  ⟨by simp [initStore],
    unknown_id_not_found tickingEnv (initStore tickingEnv) "7" [("title", .str "z")]
      (by simp [initStore])⟩

/-! ## Update -/

theorem isDefined_eq_true {v : JVal} : v.isDefined = true ↔ v ≠ .undefined := by
  cases v <;> simp [JVal.isDefined]

theorem map_id_set {ts : List Task} {i : Nat} {old new : Task}
    (h : ts[i]? = some old) (hid : new.id = old.id) :
    (ts.set i new).map Task.id = ts.map Task.id := by
  induction ts generalizing i with
  | nil => simp
  | cons t rest ih =>
    cases i with
    | zero =>
      simp at h
      subst h
      simp [hid]
    | succ i =>
      simp at h
      simp [ih h]

/-- The effect of a successful update, in the terms of the source. -/
theorem putTask_of_findIndex {env : Env} {s : Store} {id : String} {body : Body}
    {i : Nat} {old : Task} (hi : findIndex s.tasks id = some i) (hold : s.tasks[i]? = some old) :
    putTask env s id body =
      ({ s with tasks := s.tasks.set i (mergeTask old body (env.now s.dateCalls))
                dateCalls := s.dateCalls + 1 },
       { status := 200, body := .task (mergeTask old body (env.now s.dateCalls)) }) := by
  simp [putTask, hi, hold]

/-- C5: for every store holding a task with the id and every payload, the
update handler answers 200 and rewrites one position of the array, the first
task with that id. In the new task each of title, content and completed is
the supplied value when the payload defines it and the old value otherwise,
`updatedAt` is the clock reading, and id and `createdAt` are the old ones.
Every other position, the length and the sequence of ids are unchanged; with
the payload `{completed: true}` only `completed` and `updatedAt` change. -/
theorem update_changes_only_supplied_fields (env : Env) (s : Store) (id : String)
    (body : Body) (h : ∃ t ∈ s.tasks, t.id = id) :
    ∃ (i : Nat) (old new : Task),
      s.tasks[i]? = some old ∧ old.id = id ∧
      (putTask env s id body).2 = { status := 200, body := .task new } ∧
      (putTask env s id body).1.tasks[i]? = some new ∧
      new.id = old.id ∧ new.createdAt = old.createdAt ∧
      new.updatedAt = env.now s.dateCalls ∧
      (getProp body "title" = .undefined → new.title = old.title) ∧
      (getProp body "title" ≠ .undefined → new.title = getProp body "title") ∧
      (getProp body "content" = .undefined → new.content = old.content) ∧
      (getProp body "content" ≠ .undefined → new.content = getProp body "content") ∧
      (getProp body "completed" = .undefined → new.completed = old.completed) ∧
      (getProp body "completed" ≠ .undefined → new.completed = getProp body "completed") ∧
      (∀ j, j ≠ i → (putTask env s id body).1.tasks[j]? = s.tasks[j]?) ∧
      (putTask env s id body).1.tasks.length = s.tasks.length ∧
      (putTask env s id body).1.tasks.map Task.id = s.tasks.map Task.id ∧
      (body = [("completed", .bool true)] →
        new = { old with completed := .bool true, updatedAt := env.now s.dateCalls }) := by
  obtain ⟨i, hi⟩ := findIndex_isSome_of_mem h
  obtain ⟨old, hold, hid, -, -⟩ := findIndex_some hi
  have hlt := findIndex_lt hi
  refine ⟨i, old, mergeTask old body (env.now s.dateCalls), hold, hid, ?_⟩
  rw [putTask_of_findIndex hi hold]
  refine ⟨rfl, ?_, rfl, rfl, rfl, ?_, ?_, ?_, ?_, ?_, ?_, ?_, ?_, ?_, ?_⟩
  · simp [List.getElem?_set, hlt]
  · intro hu
    simp [mergeTask, hu, JVal.isDefined]
  · intro hu
    simp [mergeTask, isDefined_eq_true.mpr hu]
  · intro hu
    simp [mergeTask, hu, JVal.isDefined]
  · intro hu
    simp [mergeTask, isDefined_eq_true.mpr hu]
  · intro hu
    simp [mergeTask, hu, JVal.isDefined]
  · intro hu
    simp [mergeTask, isDefined_eq_true.mpr hu]
  · intro j hj
    simp [List.getElem?_set, Ne.symm hj]
  · simp
  · exact map_id_set hold rfl
  · intro hb
    subst hb
    simp [mergeTask, getProp, JVal.isDefined]

/-- Instance on the initial store: the welcome task and the payload
`{completed: true}`. -/
theorem update_changes_only_supplied_fields_witness :
    (∃ t ∈ (initStore tickingEnv).tasks, t.id = "1") ∧
    ∃ (i : Nat) (old new : Task),
      (initStore tickingEnv).tasks[i]? = some old ∧ old.id = "1" ∧
      (putTask tickingEnv (initStore tickingEnv) "1" [("completed", JVal.bool true)]).2 = { status := 200, body := .task new } ∧
      (putTask tickingEnv (initStore tickingEnv) "1" [("completed", JVal.bool true)]).1.tasks[i]? = some new ∧
      new.id = old.id ∧ new.createdAt = old.createdAt ∧
      new.updatedAt = tickingEnv.now (initStore tickingEnv).dateCalls ∧
      (getProp [("completed", JVal.bool true)] "title" = .undefined → new.title = old.title) ∧
      (getProp [("completed", JVal.bool true)] "title" ≠ .undefined → new.title = getProp [("completed", JVal.bool true)] "title") ∧
      (getProp [("completed", JVal.bool true)] "content" = .undefined → new.content = old.content) ∧
      (getProp [("completed", JVal.bool true)] "content" ≠ .undefined → new.content = getProp [("completed", JVal.bool true)] "content") ∧
      (getProp [("completed", JVal.bool true)] "completed" = .undefined → new.completed = old.completed) ∧
      (getProp [("completed", JVal.bool true)] "completed" ≠ .undefined → new.completed = getProp [("completed", JVal.bool true)] "completed") ∧
      (∀ j, j ≠ i → (putTask tickingEnv (initStore tickingEnv) "1" [("completed", JVal.bool true)]).1.tasks[j]? = (initStore tickingEnv).tasks[j]?) ∧
      (putTask tickingEnv (initStore tickingEnv) "1" [("completed", JVal.bool true)]).1.tasks.length = (initStore tickingEnv).tasks.length ∧
      (putTask tickingEnv (initStore tickingEnv) "1" [("completed", JVal.bool true)]).1.tasks.map Task.id = (initStore tickingEnv).tasks.map Task.id ∧
      (([("completed", JVal.bool true)] : Body) = [("completed", JVal.bool true)] →
        new = { old with completed := .bool true, updatedAt := tickingEnv.now (initStore tickingEnv).dateCalls }) :=
  ⟨by simp [initStore],
    update_changes_only_supplied_fields tickingEnv (initStore tickingEnv) "1"
      [("completed", JVal.bool true)] (by simp [initStore])⟩

/-! ## Reachable stores -/

/-- A property of the initial store that every handler preserves, for the
requests of a class `Q`, holds after every sequence of requests of that class. -/
theorem run_induction_on (env : Env) (Q : Request → Prop) (P : Store → Prop)
    (h0 : P (initStore env)) (hstep : ∀ s r, Q r → P s → P (handle env s r).1) :
    ∀ reqs, (∀ r ∈ reqs, Q r) → P (run env reqs) := by
  have key : ∀ reqs s, (∀ r ∈ reqs, Q r) → P s → P (runFrom env s reqs) := by
    intro reqs
    induction reqs with
    | nil => intro s _ hs; exact hs
    | cons r rest ih =>
      intro s hq hs
      exact ih _ (fun x hx => hq x (List.mem_cons_of_mem r hx))
        (hstep s r (hq r (List.mem_cons_self r rest)) hs)
  intro reqs hq
  exact key reqs _ hq h0

/-- A property of the initial store that every handler preserves holds after
every sequence of requests. -/
theorem run_induction (env : Env) (P : Store → Prop) (h0 : P (initStore env))
    (hstep : ∀ s r, P s → P (handle env s r).1) : ∀ reqs, P (run env reqs) :=
  fun reqs => run_induction_on env (fun _ => True) P h0 (fun s r _ hs => hstep s r hs) reqs
    (fun _ _ => trivial)

/-- The store a create leaves: the old one, or the old one with a task
appended that carries the next id and the next two clock readings. -/
theorem postTask_store (env : Env) (s : Store) (body : Body) :
    (postTask env s body).1 = s ∨
    ((getProp body "title").truthy = true ∧ (getProp body "content").truthy = true ∧
      (postTask env s body).1 =
        { tasks := s.tasks ++ [{ id := env.uuidv4 s.uuidCalls
                                 title := getProp body "title"
                                 content := getProp body "content"
                                 completed := .bool false
                                 createdAt := env.now s.dateCalls
                                 updatedAt := env.now (s.dateCalls + 1) }]
          uuidCalls := s.uuidCalls + 1
          dateCalls := s.dateCalls + 2 }) := by
  unfold postTask
  by_cases h1 : (getProp body "title").truthy = true <;>
    by_cases h2 : (getProp body "content").truthy = true <;> simp [h1, h2]

/-- The store an update leaves: the old one, or the old one with the first
task of that id replaced by its merge with the payload. -/
theorem putTask_store (env : Env) (s : Store) (id : String) (body : Body) :
    (putTask env s id body).1 = s ∨
    ∃ i old, findIndex s.tasks id = some i ∧ s.tasks[i]? = some old ∧
      (putTask env s id body).1 =
        { s with tasks := s.tasks.set i (mergeTask old body (env.now s.dateCalls))
                 dateCalls := s.dateCalls + 1 } := by
  cases hi : findIndex s.tasks id with
  | none => left; simp [putTask, hi]
  | some i =>
    obtain ⟨old, hold, -⟩ := findIndex_some hi
    right
    exact ⟨i, old, rfl, hold, by rw [putTask_of_findIndex hi hold]⟩

/-- The store a delete leaves: the old one, or the old one without the first
task of that id. -/
theorem deleteTaskById_store (s : Store) (id : String) :
    (deleteTaskById s id).1 = s ∨
    ∃ i, findIndex s.tasks id = some i ∧
      (deleteTaskById s id).1 = { s with tasks := s.tasks.eraseIdx i } := by
  cases hi : findIndex s.tasks id with
  | none => left; simp [deleteTaskById, hi]
  | some i => right; exact ⟨i, rfl, by simp [deleteTaskById, hi]⟩

/-! ## Ids -/

theorem idsInv_init (env : Env) : IdsInv env (initStore env) := by
  simp [IdsInv, initStore]

theorem idsInv_handle (env : Env) (hfresh : FreshIds env) (s : Store) (r : Request)
    (hs : IdsInv env s) : IdsInv env (handle env s r).1 := by
  obtain ⟨hmem, hnd⟩ := hs
  cases r with
  | list => exact ⟨hmem, hnd⟩
  | get id =>
    have : (getTaskById s id).1 = s := by
      unfold getTaskById
      cases findTask s.tasks id <;> rfl
    simpa [handle, this] using And.intro hmem hnd
  | health => exact ⟨hmem, hnd⟩
  | create body =>
    rcases postTask_store env s body with h | ⟨-, -, h⟩
    · simpa [handle, h] using And.intro hmem hnd
    · simp only [handle, h]
      constructor
      · intro t ht
        simp only [List.mem_append, List.mem_singleton] at ht
        rcases ht with ht | ht
        · rcases hmem t ht with h1 | ⟨j, hj, hj2⟩
          · exact Or.inl h1
          · exact Or.inr ⟨j, Nat.lt_succ_of_lt hj, hj2⟩
        · subst ht
          exact Or.inr ⟨s.uuidCalls, Nat.lt_succ_self _, rfl⟩
      · simp only [List.map_append, List.map_cons, List.map_nil]
        rw [List.nodup_append]
        refine ⟨hnd, by simp, ?_⟩
        intro a ha hb
        simp only [List.mem_singleton] at hb
        simp only [List.mem_map] at ha
        obtain ⟨t, ht, rfl⟩ := ha
        rcases hmem t ht with h1 | ⟨j, hj, hj2⟩
        · exact (hfresh s.uuidCalls).1 (hb ▸ h1)
        · exact (hfresh s.uuidCalls).2 j hj (hj2 ▸ hb)
  | update id body =>
    rcases putTask_store env s id body with h | ⟨i, old, -, hold, h⟩
    · simpa [handle, h] using And.intro hmem hnd
    · simp only [handle, h]
      have hold_mem : old ∈ s.tasks := List.getElem?_mem hold
      constructor
      · intro t ht
        rcases List.mem_or_eq_of_mem_set ht with ht | ht
        · exact hmem t ht
        · subst ht
          exact hmem old hold_mem
      · have hmap : (s.tasks.set i (mergeTask old body (env.now s.dateCalls))).map Task.id =
            s.tasks.map Task.id := map_id_set hold rfl
        simpa [hmap] using hnd
  | delete id =>
    rcases deleteTaskById_store s id with h | ⟨i, -, h⟩
    · simpa [handle, h] using And.intro hmem hnd
    · simp only [handle, h]
      constructor
      · intro t ht
        exact hmem t (List.mem_of_mem_eraseIdx ht)
      · exact hnd.sublist ((List.eraseIdx_sublist s.tasks i).map Task.id)

theorem idsInv_run (env : Env) (hfresh : FreshIds env) (reqs : List Request) :
    IdsInv env (run env reqs) :=
  run_induction env (IdsInv env) (idsInv_init env) (idsInv_handle env hfresh) reqs

theorem freshIds_tickingEnv : FreshIds tickingEnv := by
  intro k
  constructor
  · intro h
    have := congrArg String.length h
    simp [tickingEnv, String.length] at this
  · intro j hj h
    have := congrArg String.length h
    simp [tickingEnv, String.length] at this
    omega

/-- C8: when every id drawn from the generator differs from every id drawn
or present before, the tasks of every store reachable from the initial one by
any sequence of requests carry pairwise distinct ids; and an update, whatever
its payload, leaves the sequence of ids of any store as it was. -/
theorem ids_pairwise_distinct (env : Env) (hfresh : FreshIds env) (reqs : List Request) :
    (run env reqs).tasks.Pairwise (fun a b => a.id ≠ b.id) ∧
    ∀ (s : Store) (id : String) (body : Body),
      (putTask env s id body).1.tasks.map Task.id = s.tasks.map Task.id := by
  constructor
  · have h := (idsInv_run env hfresh reqs).2
    rw [List.Nodup, List.pairwise_map] at h
    exact h
  · intro s id body
    rcases putTask_store env s id body with h | ⟨i, old, -, hold, h⟩
    · rw [h]
    · rw [h]
      exact map_id_set hold rfl

/-- Instance: a create, an update whose payload carries an `id` key, and a delete
of an unknown id, with the ticking environment. -/
theorem ids_pairwise_distinct_witness :
    FreshIds tickingEnv ∧
    ((run tickingEnv [.create [("title", .str "A"), ("content", .str "x")],
        .update "1" [("id", .str "uu")], .delete "7"]).tasks.Pairwise
      (fun a b => a.id ≠ b.id) ∧
    ∀ (s : Store) (id : String) (body : Body),
      (putTask tickingEnv s id body).1.tasks.map Task.id = s.tasks.map Task.id) :=
  ⟨freshIds_tickingEnv, ids_pairwise_distinct tickingEnv freshIds_tickingEnv
    [.create [("title", .str "A"), ("content", .str "x")],
      .update "1" [("id", .str "uu")], .delete "7"]⟩

/-! ## Delete -/

theorem eraseIdx_eq_filter {ts : List Task} {id : String} {i : Nat}
    (hnd : (ts.map Task.id).Nodup) (hi : findIndex ts id = some i) :
    ts.eraseIdx i = ts.filter (fun t => decide (t.id ≠ id)) := by
  induction ts generalizing i with
  | nil => simp [findIndex] at hi
  | cons t rest ih =>
    simp only [List.map_cons, List.nodup_cons, List.mem_map, not_exists, not_and] at hnd
    by_cases hid : t.id = id
    · simp [findIndex, hid] at hi
      subst hi
      have hrest : rest.filter (fun t => decide (t.id ≠ id)) = rest := by
        rw [List.filter_eq_self]
        intro a ha
        have := hnd.1 a ha
        simp only [decide_eq_true_eq]
        intro h
        exact this (h.trans hid.symm)
      simpa [List.filter_cons, hid] using hrest.symm
    · simp [findIndex, hid] at hi
      obtain ⟨k, hk, rfl⟩ := hi
      simp [List.filter_cons, hid, ih hnd.2 hk]

/-- C7: in every reachable store (the generator producing fresh ids) and for
every id a task carries, Delete answers 204 with an empty body; the new
collection is the old one without the task of that id, the others in their
order, one task shorter; and right afterwards Get and Update (any payload)
of that id answer 404 and change nothing. -/
theorem delete_removes_task_for_good (env : Env) (hfresh : FreshIds env)
    (reqs : List Request) (id : String) (body : Body)
    (h : ∃ t ∈ (run env reqs).tasks, t.id = id) :
    (deleteTaskById (run env reqs) id).2 = { status := 204, body := .empty } ∧
    (deleteTaskById (run env reqs) id).1 =
      { run env reqs with
        tasks := (run env reqs).tasks.filter (fun t => decide (t.id ≠ id)) } ∧
    (deleteTaskById (run env reqs) id).1.tasks.length + 1 = (run env reqs).tasks.length ∧
    getTaskById (deleteTaskById (run env reqs) id).1 id =
      ((deleteTaskById (run env reqs) id).1, { status := 404, body := .error "Task not found" }) ∧
    putTask env (deleteTaskById (run env reqs) id).1 id body =
      ((deleteTaskById (run env reqs) id).1, { status := 404, body := .error "Task not found" }) := by
  obtain ⟨i, hi⟩ := findIndex_isSome_of_mem h
  have hnd := (idsInv_run env hfresh reqs).2
  have hlt := findIndex_lt hi
  have hdel : deleteTaskById (run env reqs) id =
      ({ run env reqs with
          tasks := (run env reqs).tasks.filter (fun t => decide (t.id ≠ id)) },
        { status := 204, body := .empty }) := by
    simp [deleteTaskById, hi, eraseIdx_eq_filter hnd hi]
  have habs : ∀ t ∈ (run env reqs).tasks.filter (fun t => decide (t.id ≠ id)), t.id ≠ id := by
    intro t ht
    simpa using (List.mem_filter.mp ht).2
  have h1 := findTask_eq_none.mpr habs
  have h2 := findIndex_eq_none.mpr habs
  rw [hdel]
  refine ⟨rfl, rfl, ?_, ?_, ?_⟩
  · show ((run env reqs).tasks.filter (fun t => decide (t.id ≠ id))).length + 1 = _
    rw [← eraseIdx_eq_filter hnd hi, List.length_eraseIdx_of_lt hlt]
    omega
  · simp only [getTaskById, h1]
  · simp only [putTask, h2]

/-- Instance: after one create, the welcome task is deleted. -/
theorem delete_removes_task_for_good_witness :
    FreshIds tickingEnv ∧
    (∃ t ∈ (run tickingEnv [.create [("title", .str "A"), ("content", .str "x")]]).tasks, t.id = "1") ∧
    (deleteTaskById (run tickingEnv [.create [("title", .str "A"), ("content", .str "x")]]) "1").2 = { status := 204, body := .empty } ∧
    (deleteTaskById (run tickingEnv [.create [("title", .str "A"), ("content", .str "x")]]) "1").1 =
      { run tickingEnv [.create [("title", .str "A"), ("content", .str "x")]] with
        tasks := (run tickingEnv [.create [("title", .str "A"), ("content", .str "x")]]).tasks.filter (fun t => decide (t.id ≠ "1")) } ∧
    (deleteTaskById (run tickingEnv [.create [("title", .str "A"), ("content", .str "x")]]) "1").1.tasks.length + 1 = (run tickingEnv [.create [("title", .str "A"), ("content", .str "x")]]).tasks.length ∧
    getTaskById (deleteTaskById (run tickingEnv [.create [("title", .str "A"), ("content", .str "x")]]) "1").1 "1" =
      ((deleteTaskById (run tickingEnv [.create [("title", .str "A"), ("content", .str "x")]]) "1").1, { status := 404, body := .error "Task not found" }) ∧
    putTask tickingEnv (deleteTaskById (run tickingEnv [.create [("title", .str "A"), ("content", .str "x")]]) "1").1 "1" [("title", .str "z")] =
      ((deleteTaskById (run tickingEnv [.create [("title", .str "A"), ("content", .str "x")]]) "1").1, { status := 404, body := .error "Task not found" }) :=
  ⟨freshIds_tickingEnv, ⟨_, List.Mem.head _, rfl⟩,
    delete_removes_task_for_good tickingEnv freshIds_tickingEnv
      [.create [("title", .str "A"), ("content", .str "x")]] "1" [("title", .str "z")]
      ⟨_, List.Mem.head _, rfl⟩⟩

/-! ## Timestamps -/

theorem findTask_some {ts : List Task} {id : String} {t : Task}
    (h : findTask ts id = some t) : t ∈ ts ∧ t.id = id := by
  induction ts with
  | nil => simp [findTask] at h
  | cons u rest ih =>
    by_cases hid : u.id = id
    · simp [findTask, hid] at h
      subst h
      exact ⟨List.mem_cons_self _ _, hid⟩
    · simp [findTask, hid] at h
      exact ⟨List.mem_cons_of_mem _ (ih h).1, (ih h).2⟩

theorem clock_le_of_le {env : Env} (hclk : ClockMonotone env) {j k : Nat} (h : j ≤ k) :
    env.now j ≤ env.now k :=
  monotone_nat_of_le_succ hclk h

theorem stampsInv_init (env : Env) (hclk : ClockMonotone env) :
    StampsInv env (initStore env) := by
  intro t ht
  simp only [initStore, List.mem_singleton] at ht
  subst ht
  exact ⟨hclk 0, 1, by simp [initStore], rfl⟩

theorem stampsInv_handle (env : Env) (hclk : ClockMonotone env) (s : Store) (r : Request)
    (hs : StampsInv env s) : StampsInv env (handle env s r).1 := by
  cases r with
  | list => exact hs
  | get id =>
    have : (getTaskById s id).1 = s := by
      unfold getTaskById
      cases findTask s.tasks id <;> rfl
    simpa [handle, this] using hs
  | health => exact hs
  | create body =>
    rcases postTask_store env s body with h | ⟨-, -, h⟩
    · simpa [handle, h] using hs
    · simp only [handle, h]
      intro t ht
      simp only [List.mem_append, List.mem_singleton] at ht
      rcases ht with ht | ht
      · obtain ⟨h1, k, hk, h2⟩ := hs t ht
        exact ⟨h1, k, Nat.lt_add_right 2 hk, h2⟩
      · subst ht
        exact ⟨hclk s.dateCalls, s.dateCalls + 1, Nat.lt_succ_self _, rfl⟩
  | update id body =>
    rcases putTask_store env s id body with h | ⟨i, old, -, hold, h⟩
    · simpa [handle, h] using hs
    · simp only [handle, h]
      intro t ht
      rcases List.mem_or_eq_of_mem_set ht with ht | ht
      · obtain ⟨h1, k, hk, h2⟩ := hs t ht
        exact ⟨h1, k, Nat.lt_succ_of_lt hk, h2⟩
      · subst ht
        obtain ⟨h1, k, hk, h2⟩ := hs old (List.getElem?_mem hold)
        refine ⟨?_, s.dateCalls, Nat.lt_succ_self _, rfl⟩
        show old.createdAt ≤ env.now s.dateCalls
        exact le_trans h1 (h2 ▸ clock_le_of_le hclk (Nat.le_of_lt hk))
  | delete id =>
    rcases deleteTaskById_store s id with h | ⟨i, -, h⟩
    · simpa [handle, h] using hs
    · simp only [handle, h]
      intro t ht
      exact hs t (List.mem_of_mem_eraseIdx ht)

/-- After `tasks[taskIndex] = updated`, with `taskIndex` the result of
`findIndex` for the id and `updated` carrying that id, `find` for the id
returns `updated`. -/
theorem findTask_set {ts : List Task} {id : String} {i : Nat} {new : Task}
    (hi : findIndex ts id = some i) (hid : new.id = id) :
    findTask (ts.set i new) id = some new := by
  induction ts generalizing i with
  | nil => simp [findIndex] at hi
  | cons t rest ih =>
    by_cases h : t.id = id
    · simp [findIndex, h] at hi
      subst hi
      simp [findTask, hid]
    · simp [findIndex, h] at hi
      obtain ⟨k, hk, rfl⟩ := hi
      simp [findTask, h, ih hk]

/-- C10: when the clock never goes backwards between successive reads, every
task of every store reachable from the initial one has
`createdAt ≤ updatedAt`; and an update addressed to an id whose task is `old`
answers 200 with a task `new` that is, in the new collection, the task of
that id (what Get of the id returns afterwards): it keeps the id and
`createdAt`, its `updatedAt` is the clock reading made by the update,
whatever the payload, and that is at least the previous `updatedAt` of the
task. -/
theorem timestamps_monotone (env : Env) (hclk : ClockMonotone env) (reqs : List Request) :
    (∀ t ∈ (run env reqs).tasks, t.createdAt ≤ t.updatedAt) ∧
    ∀ (id : String) (body : Body) (old : Task),
      findTask (run env reqs).tasks id = some old →
      ∃ new : Task,
        (putTask env (run env reqs) id body).2 = { status := 200, body := .task new } ∧
        new ∈ (putTask env (run env reqs) id body).1.tasks ∧
        findTask (putTask env (run env reqs) id body).1.tasks id = some new ∧
        (getTaskById (putTask env (run env reqs) id body).1 id).2 =
          { status := 200, body := .task new } ∧
        new.id = id ∧ new.createdAt = old.createdAt ∧
        new.updatedAt = env.now (run env reqs).dateCalls ∧
        old.updatedAt ≤ new.updatedAt ∧
        new.createdAt ≤ new.updatedAt := by
  have hinv : StampsInv env (run env reqs) :=
    run_induction env (StampsInv env) (stampsInv_init env hclk) (stampsInv_handle env hclk) reqs
  refine ⟨fun t ht => (hinv t ht).1, ?_⟩
  intro id body old hfind
  obtain ⟨hmem, hid⟩ := findTask_some hfind
  obtain ⟨i, hi⟩ := findIndex_isSome_of_mem ⟨old, hmem, hid⟩
  obtain ⟨t, ht, -, hfind2, -⟩ := findIndex_some hi
  have hto : t = old := by
    rw [hfind] at hfind2
    exact (Option.some.inj hfind2).symm
  subst hto
  have hlt := findIndex_lt hi
  obtain ⟨hle, k, hk, h2⟩ := hinv t hmem
  have hnow : t.updatedAt ≤ env.now (run env reqs).dateCalls :=
    h2 ▸ clock_le_of_le hclk (Nat.le_of_lt hk)
  have hset : findTask ((run env reqs).tasks.set i
      (mergeTask t body (env.now (run env reqs).dateCalls))) id =
      some (mergeTask t body (env.now (run env reqs).dateCalls)) :=
    findTask_set hi hid
  refine ⟨mergeTask t body (env.now (run env reqs).dateCalls), ?_, ?_, ?_, ?_, hid, rfl, rfl,
    hnow, le_trans hle hnow⟩
  · rw [putTask_of_findIndex hi ht]
  · rw [putTask_of_findIndex hi ht]
    exact List.mem_iff_getElem?.mpr ⟨i, by simp [List.getElem?_set, hlt]⟩
  · rw [putTask_of_findIndex hi ht]
    exact hset
  · rw [putTask_of_findIndex hi ht]
    simp only [getTaskById, hset]

theorem clockMonotone_tickingEnv : ClockMonotone tickingEnv := by
  intro k
  simp [tickingEnv]

/-- Instance under a clock that ticks at every reading: after one create, the
created task `uu` (stamps 2 and 3, second in the collection) is updated with
an empty payload and gets the stamp 4. -/
theorem timestamps_monotone_witness :
    ClockMonotone tickingEnv ∧
    findTask (run tickingEnv [.create [("title", .str "A"), ("content", .str "x")]]).tasks
      "uu" = some { id := "uu", title := .str "A", content := .str "x",
                    completed := .bool false, createdAt := 2, updatedAt := 3 } ∧
    (∀ t ∈ (run tickingEnv [.create [("title", .str "A"), ("content", .str "x")]]).tasks,
      t.createdAt ≤ t.updatedAt) ∧
    ∃ new : Task,
      (putTask tickingEnv (run tickingEnv [.create [("title", .str "A"), ("content", .str "x")]])
        "uu" []).2 = { status := 200, body := .task new } ∧
      new ∈ (putTask tickingEnv
        (run tickingEnv [.create [("title", .str "A"), ("content", .str "x")]]) "uu" []).1.tasks ∧
      findTask (putTask tickingEnv
        (run tickingEnv [.create [("title", .str "A"), ("content", .str "x")]])
        "uu" []).1.tasks "uu" = some new ∧
      (getTaskById (putTask tickingEnv
        (run tickingEnv [.create [("title", .str "A"), ("content", .str "x")]])
        "uu" []).1 "uu").2 = { status := 200, body := .task new } ∧
      new.id = "uu" ∧
      new.createdAt = (2 : Int) ∧
      new.updatedAt =
        tickingEnv.now (run tickingEnv [.create [("title", .str "A"), ("content", .str "x")]]).dateCalls ∧
      (3 : Int) ≤ new.updatedAt ∧
      new.createdAt ≤ new.updatedAt :=
  ⟨clockMonotone_tickingEnv, rfl,
    (timestamps_monotone tickingEnv clockMonotone_tickingEnv
      [.create [("title", .str "A"), ("content", .str "x")]]).1,
    (timestamps_monotone tickingEnv clockMonotone_tickingEnv
      [.create [("title", .str "A"), ("content", .str "x")]]).2 "uu" []
      { id := "uu", title := .str "A", content := .str "x",
        completed := .bool false, createdAt := 2, updatedAt := 3 } rfl⟩

/-! ## Title and content -/

/-- C9 (refuted as stated): after an update of the welcome task with the
title `""`, List returns a task with an empty title; and after a create with
title `"   "` and a tab as content, Get returns a task whose title and
content are whitespace only. -/
theorem blank_text_reachable :
    (∃ t : Task,
      (getTasks (run tickingEnv [.update "1" [("title", .str "")]])).2 =
        { status := 200, body := .tasks [t] } ∧
      t.title = .str "" ∧ t.title.blank = true) ∧
    (∃ t : Task,
      (getTaskById (run tickingEnv [.create [("title", .str "   "), ("content", .str "\t")]])
        "uu").2 = { status := 200, body := .task t } ∧
      t.title = .str "   " ∧ t.content = .str "\t" ∧
      t.title.blank = true ∧ t.content.blank = true) :=
  ⟨⟨_, rfl, rfl, by decide⟩, ⟨_, rfl, rfl, rfl, by decide, by decide⟩⟩

theorem textInv_init (env : Env) : TextInv (initStore env) := by
  intro t ht
  simp only [initStore, List.mem_singleton] at ht
  subst ht
  exact ⟨by simp [JVal.truthy], by simp [JVal.truthy]⟩

theorem mergeTask_truthy {old : Task} {body : Body} {stamp : Int}
    (hold : old.title.truthy = true ∧ old.content.truthy = true)
    (hq : (Request.update "" body).keepsText = true) :
    (mergeTask old body stamp).title.truthy = true ∧
      (mergeTask old body stamp).content.truthy = true := by
  simp only [Request.keepsText, Bool.and_eq_true, Bool.or_eq_true, Bool.not_eq_true'] at hq
  obtain ⟨h1, h2⟩ := hq
  constructor
  · show JVal.truthy (if (getProp body "title").isDefined = true then getProp body "title"
      else old.title) = true
    cases hd : (getProp body "title").isDefined with
    | true =>
      rcases h1 with h1 | h1
      · rw [hd] at h1; cases h1
      · simpa using h1
    | false => simpa using hold.1
  · show JVal.truthy (if (getProp body "content").isDefined = true then
      getProp body "content" else old.content) = true
    cases hd : (getProp body "content").isDefined with
    | true =>
      rcases h2 with h2 | h2
      · rw [hd] at h2; cases h2
      · simpa using h2
    | false => simpa using hold.2

theorem textInv_handle (env : Env) (s : Store) (r : Request) (hq : r.keepsText = true)
    (hs : TextInv s) : TextInv (handle env s r).1 := by
  cases r with
  | list => exact hs
  | get id =>
    have : (getTaskById s id).1 = s := by
      unfold getTaskById
      cases findTask s.tasks id <;> rfl
    simpa [handle, this] using hs
  | health => exact hs
  | create body =>
    rcases postTask_store env s body with h | ⟨h1, h2, h⟩
    · simpa [handle, h] using hs
    · simp only [handle, h]
      intro t ht
      simp only [List.mem_append, List.mem_singleton] at ht
      rcases ht with ht | ht
      · exact hs t ht
      · subst ht
        exact ⟨h1, h2⟩
  | update id body =>
    rcases putTask_store env s id body with h | ⟨i, old, -, hold, h⟩
    · simpa [handle, h] using hs
    · simp only [handle, h]
      intro t ht
      rcases List.mem_or_eq_of_mem_set ht with ht | ht
      · exact hs t ht
      · subst ht
        exact mergeTask_truthy (hs old (List.getElem?_mem hold)) hq
  | delete id =>
    rcases deleteTaskById_store s id with h | ⟨i, -, h⟩
    · simpa [handle, h] using hs
    · simp only [handle, h]
      intro t ht
      exact hs t (List.mem_of_mem_eraseIdx ht)

theorem ne_empty_of_truthy {v : JVal} (h : v.truthy = true) : v ≠ .str "" := by
  intro hv
  subst hv
  simp [JVal.truthy] at h

/-- C9 (amended): in every store reachable from the initial one by requests
whose updates supply, for title and for content, either nothing or a truthy
value, every task returned by List and by Get has a truthy title and a truthy
content, so neither is the empty string. (Whitespace-only strings are truthy
and are not excluded.) -/
theorem text_nonempty_without_emptying_updates (env : Env) (reqs : List Request)
    (h : ∀ r ∈ reqs, r.keepsText = true) :
    (∀ ts, (getTasks (run env reqs)).2.body = .tasks ts → ∀ t ∈ ts,
      t.title.truthy = true ∧ t.content.truthy = true ∧
      t.title ≠ .str "" ∧ t.content ≠ .str "") ∧
    (∀ id t, (getTaskById (run env reqs) id).2.body = .task t →
      t.title.truthy = true ∧ t.content.truthy = true ∧
      t.title ≠ .str "" ∧ t.content ≠ .str "") := by
  have hinv : TextInv (run env reqs) :=
    run_induction_on env (fun r => r.keepsText = true) TextInv (textInv_init env)
      (fun s r hq hs => textInv_handle env s r hq hs) reqs h
  have key : ∀ t ∈ (run env reqs).tasks, t.title.truthy = true ∧ t.content.truthy = true ∧
      t.title ≠ .str "" ∧ t.content ≠ .str "" := fun t ht =>
    ⟨(hinv t ht).1, (hinv t ht).2, ne_empty_of_truthy (hinv t ht).1,
      ne_empty_of_truthy (hinv t ht).2⟩
  constructor
  · intro ts hts t ht
    simp only [getTasks, ResBody.tasks.injEq] at hts
    subst hts
    exact key t ht
  · intro id t ht
    unfold getTaskById at ht
    cases hf : findTask (run env reqs).tasks id with
    | none => simp [hf] at ht
    | some u =>
      simp only [hf, ResBody.task.injEq] at ht
      subst ht
      exact key u (findTask_some hf).1

/-- Instance: a create followed by an update that supplies `completed` only. -/
theorem text_nonempty_without_emptying_updates_witness :
    (∀ r ∈ ([.create [("title", .str "A"), ("content", .str "x")],
      .update "1" [("completed", .bool true)]] : List Request), r.keepsText = true) ∧
    ((∀ ts, (getTasks (run tickingEnv [.create [("title", .str "A"), ("content", .str "x")],
      .update "1" [("completed", .bool true)]])).2.body = .tasks ts → ∀ t ∈ ts,
      t.title.truthy = true ∧ t.content.truthy = true ∧
      t.title ≠ .str "" ∧ t.content ≠ .str "") ∧
    (∀ id t, (getTaskById (run tickingEnv [.create [("title", .str "A"), ("content", .str "x")],
      .update "1" [("completed", .bool true)]]) id).2.body = .task t →
      t.title.truthy = true ∧ t.content.truthy = true ∧
      t.title ≠ .str "" ∧ t.content ≠ .str "")) :=
  ⟨by decide,
    text_nonempty_without_emptying_updates tickingEnv
      [.create [("title", .str "A"), ("content", .str "x")],
        .update "1" [("completed", .bool true)]] (by decide)⟩

end TaskNotes
